import Mathlib

/-!
# Verification of the MCQ generation pipeline (snippet-type-mcq)

A shallow embedding, over `List Char`, of the text-processing core of the
repository:

* `convertor.py` — `convert_to_json_format` (batch splitter + inline record
  parser) and the refactored `mcq/convertor.py` — `convert_to_json_format`
  (splitter) / `extract_question_components` (record parser);
* `qc.py` — `perform_qc_with_claude` / `process_mcqs` (quality-control pass);
* `mcq/db.py` — `QuestionBank.add_unique_questions` / `question_exists`
  (duplicate-detection store).

Modelling conventions:

* Python strings are modelled as `List Char`.  The regular expressions used by
  the source are each compiled by hand into a dedicated scanning function that
  reproduces the backtracking behaviour of the specific pattern (leftmost
  match, greedy `\d+`/`\s*`/`\w+`, lazy `.*?`, lookaheads).  Character classes
  (`\d`, `\s`, `\w`) are modelled over their ASCII meaning.
* Exceptions are modelled with `Option`/`Except`: a caught exception becomes
  the handler's value, an uncaught one becomes `Except.error`.
* Python list indexing (including negative indices and `IndexError`) is
  modelled by `pyGet`.
* External services (the Elasticsearch index, the embedding model, the LLM
  reviewer) are modelled as explicit environments of oracle functions.
* Logging and the textual content of error messages are not modelled; file
  writes are modelled as an explicit write list.
-/

set_option maxRecDepth 40000

namespace MCQ

/-! ## Basic character classes and list utilities -/

/-- ASCII meaning of the regex class `\s` (also the set stripped by Python's
`str.strip`). -/
def isSpaceP (c : Char) : Bool :=
  c == ' ' || c == '\t' || c == '\n' || c == '\x0d' || c == '\x0b' || c == '\x0c'

/-- ASCII meaning of the regex class `\d`. -/
def isDigitP (c : Char) : Bool :=
  '0' ≤ c && c ≤ '9'

/-- ASCII meaning of the regex class `\w`. -/
def isWordP (c : Char) : Bool :=
  ('a' ≤ c && c ≤ 'z') || ('A' ≤ c && c ≤ 'Z') || isDigitP c || c == '_'

/-- `isPrefixL pat s`: does `pat` occur at the very start of `s`? -/
def isPrefixL : List Char → List Char → Bool
  | [], _ => true
  | _ :: _, [] => false
  | a :: as, b :: bs => a == b && isPrefixL as bs

/-- Python's `pat in s`: does `pat` occur somewhere in `s` (as a contiguous
substring)? -/
def containsSub (pat : List Char) : List Char → Bool
  | [] => isPrefixL pat []
  | c :: cs => isPrefixL pat (c :: cs) || containsSub pat cs

/-- Remove trailing whitespace (helper for Python `str.strip`). -/
def rtrim : List Char → List Char
  | [] => []
  | c :: cs => if rtrim cs = [] ∧ isSpaceP c then [] else c :: rtrim cs

/-- Python `str.strip()`: remove leading and trailing whitespace. -/
def trim (s : List Char) : List Char :=
  rtrim (s.dropWhile isSpaceP)

/-- Numeric value of a digit string, as computed by Python's `int`. -/
def natOfDigits (ds : List Char) : Nat :=
  ds.foldl (fun n c => n * 10 + (c.toNat - '0'.toNat)) 0

/-- Worker for `splitTok`: Python `str.split(sep)`, scanning left to right for
non-overlapping occurrences of a non-empty `tok`.  `skip > 0` means the scanner
is still inside a recognised separator occurrence and has `skip` of its
characters left to pass over (written as a character-by-character state machine
so that the kernel can evaluate it). -/
def splitTokGo (tok : List Char) : List Char → Nat → List Char → List (List Char)
  | [], _, acc => [acc.reverse]
  | _ :: cs, k + 1, acc => splitTokGo tok cs k acc
  | c :: cs, 0, acc =>
    if isPrefixL tok (c :: cs) then
      acc.reverse :: splitTokGo tok cs (tok.length - 1) []
    else
      splitTokGo tok cs 0 (c :: acc)

/-- Python `s.split(sep)` for a non-empty separator (the source never splits
on an empty separator). -/
def splitTok (tok s : List Char) : List (List Char) :=
  match tok with
  | [] => [s]
  | _ :: _ => splitTokGo tok s 0 []

/-- Python `s.split(sep)[0]`: the part of `s` before the first occurrence of
`sep` (all of `s` when `sep` does not occur). -/
def splitFirst (tok s : List Char) : List Char :=
  match splitTok tok s with
  | [] => []
  | x :: _ => x

/-- Python `s.replace(old, '')`: remove every (non-overlapping, left-to-right)
occurrence of `old`. -/
def replaceAllE (tok s : List Char) : List Char :=
  (splitTok tok s).foldr (· ++ ·) []

/-- Python list indexing `xs[i]` with negative-index wrap-around;
`none` models an `IndexError`. -/
def pyGet {α : Type} (xs : List α) (i : Int) : Option α :=
  if 0 ≤ i ∧ i < (xs.length : Int) then xs.get? i.toNat
  else if i < 0 ∧ 0 ≤ (xs.length : Int) + i then xs.get? ((xs.length : Int) + i).toNat
  else none

/-! ## Regex models for the record parsers

Each function below is the hand-compilation of one regular expression used by
`convertor.py` / `mcq/convertor.py`, with the scanning and backtracking
behaviour of Python's `re` worked out for that particular pattern. -/

/-- Does `Q\d+\.` match at the head of `s`?  (Greedy `\d+` followed by a
literal dot: since a dot is not a digit, backtracking inside `\d+` can never
help, so this is "a `Q`, a maximal non-empty digit run, then `.`".) -/
def markerAt (s : List Char) : Bool :=
  match s with
  | 'Q' :: rest =>
    rest.takeWhile isDigitP ≠ [] &&
      (match rest.dropWhile isDigitP with
       | '.' :: _ => true
       | _ => false)
  | _ => false

/-- The digits captured by `Q(\d+)\.` at the head of `s` (meaningful only when
`markerAt s`). -/
def markerDigits (s : List Char) : List Char :=
  (s.drop 1).takeWhile isDigitP

/-- The suffix of `s` after the `Q\d+\.` marker at its head. -/
def dropMarker (s : List Char) : List Char :=
  ((s.drop 1).dropWhile isDigitP).drop 1

/-- The lookahead `(?=\n```|\n1\))` shared by the two question-text patterns
(a literal `1`, not `\d+`). -/
def lookQText (s : List Char) : Bool :=
  isPrefixL "\n```".data s || isPrefixL "\n1)".data s

/-- Lazy `(.*?)(?=\n```|\n1\)|\Z)` (DOTALL): the shortest prefix ending where
the lookahead or the end of input is reached.  Used by `convertor.py`'s
question-text pattern, whose `\Z` alternative makes the match total. -/
def lazyQTextOld : List Char → List Char
  | [] => []
  | c :: cs => if lookQText (c :: cs) then [] else c :: lazyQTextOld cs

/-- `re.search(r'Q\d+\.\s*(.*?)(?=\n```|\n1\)|\Z)', q, re.DOTALL).group(1)`
from `convertor.py` lines 37–41.  At the leftmost marker position the greedy
`\s*` takes the maximal whitespace run (thanks to `\Z` the remainder always
matches, so the engine never backtracks into `\s*`), then the lazy `.*?` stops
at the first lookahead position. -/
def searchQTextOld : List Char → Option (List Char)
  | [] => none
  | c :: cs =>
    if markerAt (c :: cs) then
      some (lazyQTextOld ((dropMarker (c :: cs)).dropWhile isSpaceP))
    else
      searchQTextOld cs

/-- Lazy `(.*?)(?=\n```|\n1\))` without a `\Z` alternative: `none` when no
lookahead position exists before the end of input. -/
def lazyQTextMcq : List Char → Option (List Char)
  | [] => none
  | c :: cs =>
    if lookQText (c :: cs) then some []
    else (lazyQTextMcq cs).map (c :: ·)

/-- Backtracking of `\s*(.*?)(?=\n```|\n1\))` over `rest` (the text after the
marker): the engine first lets `\s*` take `k` whitespace characters (maximal
`k` first) and then scans lazily for the lookahead; on failure it retries with
`k - 1`. -/
def backtrackWsMcq : Nat → List Char → Option (List Char)
  | k, rest =>
    match lazyQTextMcq (rest.drop k) with
    | some g => some g
    | none =>
      match k with
      | 0 => none
      | k' + 1 => backtrackWsMcq k' rest

/-- `re.search(r'Q(\d+)\.\s*(.*?)(?=\n```|\n1\))', q, re.DOTALL)` from
`mcq/convertor.py` line 22 (group 2): scan for the leftmost marker position at
which the rest of the pattern matches. -/
def searchQTextMcq : List Char → Option (List Char)
  | [] => none
  | c :: cs =>
    if markerAt (c :: cs) then
      let rest := dropMarker (c :: cs)
      match backtrackWsMcq (rest.takeWhile isSpaceP).length rest with
      | some g => some g
      | none => searchQTextMcq cs
    else
      searchQTextMcq cs

/-- Lazy `(.*?)```: the text up to the first closing fence, `none` when there
is no closing fence. -/
def lazyTicks : List Char → Option (List Char)
  | [] => none
  | c :: cs =>
    if isPrefixL "```".data (c :: cs) then some []
    else (lazyTicks cs).map (c :: ·)

/-- One attempt of `` ```(\w+)\n(.*?)``` `` at the head of `s`:
opening fence, maximal non-empty `\w+` run (a newline is not a word character,
so backtracking inside `\w+` can never help), a newline, then the lazy body up
to the first closing fence.  Returns `(language, raw body)`. -/
def codeAt (s : List Char) : Option (List Char × List Char) :=
  if isPrefixL "```".data s then
    let r := s.drop 3
    let w := r.takeWhile isWordP
    if w ≠ [] then
      match r.dropWhile isWordP with
      | '\n' :: r2 => (lazyTicks r2).map (fun code => (w, code))
      | _ => none
    else none
  else none

/-- `re.search(r'```(\w+)\n(.*?)```', q, re.DOTALL)`: leftmost position at
which `codeAt` succeeds. -/
def searchCode : List Char → Option (List Char × List Char)
  | [] => none
  | c :: cs =>
    match codeAt (c :: cs) with
    | some m => some m
    | none => searchCode cs

/-- `group(0)` of the code-block match: the full matched text. -/
def codeGroup0 (lang code : List Char) : List Char :=
  "```".data ++ lang ++ '\n' :: code ++ "```".data

/-- Does `\d+\)` match at the head of `s` (maximal digit run, then `)`)? -/
def digitsParen (s : List Char) : Bool :=
  s.takeWhile isDigitP ≠ [] &&
    (match s.dropWhile isDigitP with
     | ')' :: _ => true
     | _ => false)

/-- The suffix of `s` after the `\d+\)` at its head. -/
def afterDigitsParen (s : List Char) : List Char :=
  (s.dropWhile isDigitP).drop 1

/-- The lookahead `(?=\n\d+\)|\nCorrect answer:)` of the option pattern. -/
def lookOpt (s : List Char) : Bool :=
  (match s with
   | '\n' :: r => digitsParen r
   | _ => false) ||
  isPrefixL "\nCorrect answer:".data s

/-- Mode of the option-`findall` scanner:
* `scan` — searching for the next `\d+\)` match start;
* `skipSep k` — inside a recognised `\d+\)` marker, `k + 1` characters of it
  left to pass over;
* `skipWs` — inside the greedy `\s*` run after the marker;
* `inOpt acc` — inside the lazy capture group, `acc` holding its characters in
  reverse. -/
inductive OptMode where
  | scan
  | skipSep (k : Nat)
  | skipWs
  | inOpt (acc : List Char)

/-- `re.findall(r'\d+\)\s*(.*?)(?=\n\d+\)|\nCorrect answer:|\Z)', q, re.DOTALL)`
(`convertor.py` line 58 / `mcq/convertor.py` line 48) as a one-pass state
machine.  At each `\d+\)` occurrence the `\Z` alternative makes the rest of
the pattern total, so greedy `\s*` takes the maximal whitespace run and the
lazy group stops at the first lookahead position `j`, where `findall`
resumes.  Two observations make the machine character-by-character:
the group cannot end at its own first character (both lookahead
alternatives start with a newline, which is whitespace and therefore cannot
be the first character after the maximal `\s*` run); and when the group ends
at `j`, `s[j]` is a newline, at which no `\d+\)` can start, so resuming the
scan at `j` is the same as resuming it at `j + 1`. -/
def optsGo : List Char → OptMode → List (List Char)
  | [], .scan => []
  | [], .skipSep _ => []
  | [], .skipWs => [[]]
  | [], .inOpt acc => [acc.reverse]
  | c :: cs, .scan =>
    if digitsParen (c :: cs) then
      optsGo cs (.skipSep (((c :: cs).takeWhile isDigitP).length - 1))
    else optsGo cs .scan
  | _ :: cs, .skipSep 0 => optsGo cs .skipWs
  | _ :: cs, .skipSep (k + 1) => optsGo cs (.skipSep k)
  | c :: cs, .skipWs =>
    if isSpaceP c then optsGo cs .skipWs
    else optsGo cs (.inOpt [c])
  | c :: cs, .inOpt acc =>
    if lookOpt (c :: cs) then acc.reverse :: optsGo cs .scan
    else optsGo cs (.inOpt (c :: acc))

/-- The option captures of a block.  (`[], .skipSep _` above is unreachable:
`skipSep` is entered only with the whole `\d+\)` marker present.  `[], .skipWs`
is the marker followed by whitespace running to the end: the lazy group then
matches empty at `\Z`.) -/
def findallOpts (s : List Char) : List (List Char) :=
  optsGo s .scan

/-- `re.search(r'Correct answer:\s*(\d+)', q)` (`convertor.py` line 66 /
`mcq/convertor.py` line 56), as the parsed integer: at each occurrence of the
literal, greedy `\s*` takes the maximal whitespace run (a digit is not
whitespace, so backtracking cannot help) and `\d+` must then capture a
non-empty digit run; otherwise the scan moves one character forward. -/
def searchCorrect : List Char → Option Nat
  | [] => none
  | c :: cs =>
    if isPrefixL "Correct answer:".data (c :: cs) then
      let r := ((c :: cs).drop 15).dropWhile isSpaceP
      let ds := r.takeWhile isDigitP
      if ds ≠ [] then some (natOfDigits ds) else searchCorrect cs
    else
      searchCorrect cs

/-- `re.search(r'Difficulty:\s*(\w+)', q)`: same shape as `searchCorrect`
with `\w+` (a whitespace character is not a word character). -/
def searchDifficulty : List Char → Option (List Char)
  | [] => none
  | c :: cs =>
    if isPrefixL "Difficulty:".data (c :: cs) then
      let r := ((c :: cs).drop 11).dropWhile isSpaceP
      let ws := r.takeWhile isWordP
      if ws ≠ [] then some ws else searchDifficulty cs
    else
      searchDifficulty cs

/-- `re.search(r'Tags:\s*(.*?)(?=\n|$)', q)` (no DOTALL, no MULTILINE): at the
first occurrence of the literal, greedy `\s*` takes the maximal whitespace run
(which may cross newlines) and the lazy group — which cannot contain a
newline — stops at the next newline or at the end, so the match is total. -/
def searchTags : List Char → Option (List Char)
  | [] => none
  | c :: cs =>
    if isPrefixL "Tags:".data (c :: cs) then
      some ((((c :: cs).drop 5).dropWhile isSpaceP).takeWhile (fun d => d ≠ '\n'))
    else
      searchTags cs

/-- The lookahead `(?=Correct answer:|$)` of the options-section pattern:
`$` (without MULTILINE) matches at the end of input and just before a final
newline. -/
def lazyCA : List Char → List Char
  | [] => []
  | c :: cs =>
    if isPrefixL "Correct answer:".data (c :: cs) then []
    else if c = '\n' ∧ cs = [] then []
    else c :: lazyCA cs

/-- Group 1 of `((?:^|\n)\d+\).*?)(?=Correct answer:|$)` once the
`(^|\n)\d+\)` start has been located at the head of `s` (for the `\n` case `s`
starts with the newline).  `$` makes the lazy scan total. -/
def optSectGroup (s : List Char) : List Char :=
  match s with
  | '\n' :: r => '\n' :: (r.takeWhile isDigitP ++ ')' :: lazyCA (afterDigitsParen r))
  | r => r.takeWhile isDigitP ++ ')' :: lazyCA (afterDigitsParen r)

/-- Scan of `(?:^|\n)\d+\)` start positions other than position 0. -/
def searchOptSectionAux : List Char → Option (List Char)
  | [] => none
  | c :: cs =>
    if c = '\n' ∧ digitsParen cs then some (optSectGroup (c :: cs))
    else searchOptSectionAux cs

/-- `re.search(r'((?:^|\n)\d+\).*?)(?=Correct answer:|$)', q, re.DOTALL)`
(`mcq/convertor.py` line 43): the `^` alternative is only position 0. -/
def searchOptSection (s : List Char) : Option (List Char) :=
  if digitsParen s then some (optSectGroup s) else searchOptSectionAux s

/-! ## The question record and the two record parsers -/

/-- The JSON-shaped question record built by both parsers.  Fields that the
source always sets to the same constant (`subject_id: None`, …, `hint: []`,
`answer_explanation: ...args: []`, `question_media: []`, the `media: ""` of
each option, and `answer`'s always-empty second list) are omitted;
`question_type` is kept as the constant the source writes.  `createdBy` /
`qb_id` are attached by the callers, not by the parsers. -/
structure Record where
  question_type : List Char
  question_data : List Char
  options : List (List Char)
  answerArgs : List (List Char)
  manual_difficulty : List Char
  question_editor_type : Nat
  tags : List (List Char)
  deriving DecidableEq, Repr, Inhabited

/-- `f"<p>{question_text}</p>"` plus the `\n$$$examly{code_block}` suffix when
a (non-empty, stripped) code block is present — `convertor.py` lines 52–54 /
`mcq/convertor.py` lines 38–40. -/
def mkQuestionData (qtext code : List Char) : List Char :=
  "<p>".data ++ qtext ++ "</p>".data ++
    (if code ≠ [] then "\n$$$examly".data ++ code else [])

/-- The stripped code block of a question (`""` when the code regex does not
match), shared by both parsers. -/
def codeBlockOf (question : List Char) : List Char :=
  match searchCode question with
  | some m => trim m.2
  | none => []

/-- The stripped option texts extracted by `convertor.py` lines 57–59. -/
def oldOptions (question : List Char) : List (List Char) :=
  (findallOpts question).map trim

/-- `Difficulty` / `Tags` metadata (`convertor.py` lines 72–78 /
`mcq/convertor.py` lines 66–71): difficulty defaults to `"Easy"`, tags are
the comma-split, stripped pieces of the `Tags:` capture (absent marker gives
`[]`; note that a present marker with empty capture gives `[""]`, exactly as
Python's `"".split(',')` does). -/
def difficultyOf (q : List Char) : List Char :=
  (searchDifficulty q).getD "Easy".data

def tagsOf (q : List Char) : List (List Char) :=
  match searchTags q with
  | some t => (splitTok [','] t).map trim
  | none => []

/-- The per-question body of `convert_to_json_format` in `convertor.py`
(lines 35–115).  The whole body runs inside `try: ... except: continue`; the
only statement that can raise on the modelled paths is the Python indexing
`options[correct_answer]` (an out-of-range index raises `IndexError`, a
negative index ≥ `-len` wraps around), so `pyGet ... = none` lands in the
`except` handler, i.e. yields `none`.  Note the absence of any bounds check
on `correct_answer`. -/
def processQuestionOld (question : List Char) : Option Record :=
  match searchQTextOld question with
  | none => none
  | some qt =>
    if (oldOptions question).length = 4 then
      match searchCorrect question with
      | none => none
      | some n =>
        match pyGet (oldOptions question) ((n : Int) - 1) with
        | none => none
        | some ans =>
          some {
            question_type := "mcq_single_correct".data
            question_data := mkQuestionData (trim qt) (codeBlockOf question)
            options := oldOptions question
            answerArgs := [ans]
            manual_difficulty := difficultyOf question
            question_editor_type := if codeBlockOf question ≠ [] then 3 else 1
            tags := tagsOf question }
    else none

/-- `mcq/convertor.py` line 35: when the code regex matches, every occurrence
of its `group(0)` is removed from the block (`str.replace` with `''`) before
the options / answer / metadata are extracted. -/
def strippedQuestion (question : List Char) : List Char :=
  match searchCode question with
  | some m => replaceAllE (codeGroup0 m.1 m.2) question
  | none => question

/-- The stripped option texts extracted by `mcq/convertor.py` lines 43–49 from
the code-stripped block: `[]` when the options-section regex fails. -/
def mcqOptions (question2 : List Char) : List (List Char) :=
  match searchOptSection question2 with
  | some sect => (findallOpts sect).map trim
  | none => []

/-- `extract_question_components` from `mcq/convertor.py` lines 18–99.
The question text is taken from the original block (line 22, before the code
block is removed); options, correct answer and metadata are taken from the
code-stripped block.  Unlike `convertor.py`, the parsed answer index is
range-checked (lines 62–64). -/
def extract_question_components (question : List Char) : Option Record :=
  match searchQTextMcq question with
  | none => none
  | some qt =>
    match searchOptSection (strippedQuestion question) with
    | none => none
    | some sect =>
      if ((findallOpts sect).map trim).length = 4 then
        match searchCorrect (strippedQuestion question) with
        | none => none
        | some n =>
          if (n : Int) - 1 < 0 ∨ 4 ≤ (n : Int) - 1 then none
          else
            match pyGet ((findallOpts sect).map trim) ((n : Int) - 1) with
            | none => none
            | some ans =>
              some {
                question_type := "mcq_single_correct".data
                question_data := mkQuestionData (trim qt) (codeBlockOf question)
                options := (findallOpts sect).map trim
                answerArgs := [ans]
                manual_difficulty := difficultyOf (strippedQuestion question)
                question_editor_type := if codeBlockOf question ≠ [] then 3 else 1
                tags := tagsOf (strippedQuestion question) }
      else none

/-! ## The batch splitters -/

/-- `re.split` on a zero-width lookahead pattern: cut the input at every
position where `cut` holds on the remaining suffix (Python advances one
character after an empty match, which is what the character-by-character
recursion does). -/
def splitByCut (cut : List Char → Bool) : List Char → List Char → List (List Char)
  | [], acc => [acc.reverse]
  | c :: cs, acc =>
    if cut (c :: cs) then acc.reverse :: splitByCut cut cs [c]
    else splitByCut cut cs (c :: acc)

/-- `re.split(r'(?=Q\d+\.)', content)` followed by
`[q.strip() for q in questions if q.strip()]` — `convertor.py` lines 18–20. -/
def splitBlocksOld (content : List Char) : List (List Char) :=
  ((splitByCut markerAt content []).map trim).filter (fun q => q ≠ [])

/-- The cut predicate of `mcq/convertor.py` line 120:
`(?=Q\d+\.)|(?=---)`. -/
def cutMcq (s : List Char) : Bool :=
  markerAt s || isPrefixL "---".data s

/-- `re.split(r'(?=Q\d+\.)|(?=---)', content)` followed by
`[q.strip() for q in questions if q.strip() and q.startswith('Q')]` —
`mcq/convertor.py` lines 120–121 (note: `startswith` is tested on the
*unstripped* piece). -/
def splitBlocksMcq (content : List Char) : List (List Char) :=
  (splitByCut cutMcq content []).filterMap (fun q =>
    if trim q ≠ [] ∧ q.head? = some 'Q' then some (trim q) else none)

/-- The expected-count reconciliation of `convertor.py` lines 25–28:
`if expected_count and len(questions) != expected_count:
questions = questions[:expected_count]` (note Python truthiness: an expected
count of `0` disables the guard; a slice past the end is the whole list). -/
def reconcileOld (expected : Option Nat) (qs : List (List Char)) : List (List Char) :=
  match expected with
  | some e => if e ≠ 0 ∧ qs.length ≠ e then qs.take e else qs
  | none => qs

/-- The expected-count reconciliation of `mcq/convertor.py` lines 127–131:
same guard, but the truncation is additionally conditioned on
`total_questions > expected_count`. -/
def reconcileMcq (expected : Option Nat) (qs : List (List Char)) : List (List Char) :=
  match expected with
  | some e =>
    if e ≠ 0 ∧ qs.length ≠ e then
      (if qs.length > e then qs.take e else qs)
    else qs
  | none => qs

/-- The splitter stage of `convert_to_json_format` in `convertor.py`
(lines 17–28): split, clean, reconcile. -/
def convertSplitOld (content : List Char) (expected : Option Nat) : List (List Char) :=
  reconcileOld expected (splitBlocksOld content)

/-- The splitter stage of `convert_to_json_format` in `mcq/convertor.py`
(lines 119–131). -/
def convertSplitMcq (content : List Char) (expected : Option Nat) : List (List Char) :=
  reconcileMcq expected (splitBlocksMcq content)

/-- "begins with the question-start marker prefix" as the spec words it:
a `Q`, digits, and a period. -/
def beginsWithMarker (s : List Char) : Bool :=
  markerAt s

/-! ## The quality-control pass (`qc.py`) -/

/-- The files touched by `qc.py` (paths are parameters in the source). -/
inductive FName where
  | inputF
  | outputF
  | logF
  deriving DecidableEq, Repr

/-- A file write performed by the QC pass. -/
structure FileWrite where
  name : FName
  content : List Char
  deriving DecidableEq, Repr

/-- The external reviewer: for batch index `i`, the raw response text
(`response.content[0].text` of `qc.py` line 222); plus the timestamp string
used in the log header. -/
structure QcEnv where
  reviewer : Nat → List Char
  now : List Char

/-- `re.sub(r'^.*?(?=Q\d+\.)', '', mcqs, flags=re.DOTALL)` (`qc.py` line 98):
remove the text before the first `Q\d+\.` marker; when there is no marker the
pattern cannot match and the text is unchanged. -/
def dropToMarker : List Char → Option (List Char)
  | [] => none
  | c :: cs => if markerAt (c :: cs) then some (c :: cs) else dropToMarker cs

def preClean (s : List Char) : List Char :=
  (dropToMarker s).getD s

/-- `[q.strip() for q in mcqs.split('---') if q.strip() and
q.strip().startswith('Q')]` (`qc.py` lines 99 and 231 — here `startswith` IS
tested on the stripped piece). -/
def qcSplitQuestions (s : List Char) : List (List Char) :=
  (splitTok "---".data s).filterMap (fun q =>
    if trim q ≠ [] ∧ (trim q).head? = some 'Q' then some (trim q) else none)

/-- The question blocks `perform_qc_with_claude` works on (lines 95–99). -/
def qcQuestionsOf (input : List Char) : List (List Char) :=
  qcSplitQuestions (preClean input)

/-- `re.search(r'Q(\d+)\.', q)` group 1 — the ordinal as a *string*
(lines 102–106); blocks with no such match contribute nothing, which can
shift `question_numbers` out of step with `questions`. -/
def firstMarkerNum : List Char → Option (List Char)
  | [] => none
  | c :: cs => if markerAt (c :: cs) then some (markerDigits (c :: cs)) else firstMarkerNum cs

def numbersOf (qs : List (List Char)) : List (List Char) :=
  qs.filterMap firstMarkerNum

/-- The `=== QC REPORT ===` sentinel. -/
def qcTok : List Char := "=== QC REPORT ===".data

/-- Lines 222–231: strip the response, cut off everything from the first
`=== QC REPORT ===` on (when present), split into blocks like the input. -/
def responseQuestions (resp : List Char) : List (List Char) :=
  let br := trim resp
  let qpart := if containsSub qcTok br then trim (splitFirst qcTok br) else trim br
  qcSplitQuestions qpart

/-- The per-batch validation of lines 233–240: the response must contain
exactly as many blocks as were sent, and each must start with `Q<n>.` for its
expected ordinal string (`zip` stops at the shorter list). -/
def validBatch (resp : List Char) (batchQ batchN : List (List Char)) : Bool :=
  (responseQuestions resp).length = batchQ.length &&
    ((responseQuestions resp).zip batchN).all
      (fun p => isPrefixL ('Q' :: p.2 ++ ['.']) p.1)

/-- The batch loop of lines 114–243 (`BATCH_SIZE = 5`): an invalid batch
raises `ValueError`, modelled as `Except.error`; a valid batch contributes its
response blocks in order.  Written with an explicit five-element pattern so
that the recursion is structural; the final short batch (1–4 blocks) is the
last loop iteration. -/
def qcLoop (env : QcEnv) (idx : Nat) :
    List (List Char) → List (List Char) → Except Unit (List (List Char))
  | [], _ => .ok []
  | q1 :: q2 :: q3 :: q4 :: q5 :: rest, ns =>
    let resp := env.reviewer idx
    if validBatch resp [q1, q2, q3, q4, q5] (ns.take 5) then
      (qcLoop env (idx + 1) rest (ns.drop 5)).map (responseQuestions resp ++ ·)
    else
      .error ()
  | qs, ns =>
    let resp := env.reviewer idx
    if validBatch resp qs (ns.take 5) then .ok (responseQuestions resp)
    else .error ()

/-- `'\n\n---\n\n'.join(all_corrected_mcqs)` (line 246). -/
def joinSep (sep : List Char) : List (List Char) → List Char
  | [] => []
  | [x] => x
  | x :: y :: r => x ++ sep ++ joinSep sep (y :: r)

/-- `perform_qc_with_claude` (`qc.py` lines 91–261) for a given input text:
either `Except.error` (a raised `ValueError`, re-raised by the function's own
`except` at line 261 — at that point *no* file has been written, because both
writes happen only after every batch succeeded, lines 250–255), or the
corrected text together with the two file writes.  The textual QC report is
summarised by the raw batch responses (its exact formatting plays no role in
any claim). -/
def performQc (env : QcEnv) (input : List Char) :
    Except Unit (List Char × List FileWrite) :=
  match qcLoop env 0 (qcQuestionsOf input) (numbersOf (qcQuestionsOf input)) with
  | .error e => .error e
  | .ok blocks =>
    .ok (joinSep "\n\n---\n\n".data blocks,
      [⟨.outputF, joinSep "\n\n---\n\n".data blocks⟩,
       ⟨.logF, "QC Report Generated at ".data ++ env.now ++ ['\n']⟩])

/-- `verify_mcq_format` (`qc.py` lines 263–284). -/
def verifyMcqFormat (t : List Char) : Bool :=
  (["Q", "1)", "2)", "3)", "4)", "Correct answer:", "Difficulty:",
    "Subject:", "Topic:", "Sub-topic:", "Tags:"].map String.data).all
    (fun e => containsSub e t)

/-- The result of `process_mcqs`: the `(success, corrected_mcqs, ...)` triple
of lines 320/326, plus the file writes that happened. -/
structure PMResult where
  success : Bool
  corrected : Option (List Char)
  writes : List FileWrite
  deriving Repr

/-- `process_mcqs` (`qc.py` lines 286–326): empty input or bad input format
raise (caught at line 322, returning `(False, None, msg)` with nothing
written); then `perform_qc_with_claude` runs, whose own raise is also caught
as a failure; finally the corrected text's format is re-verified (a failure
there also returns `False`, but the QC-pass writes have already happened). -/
def process_mcqs (env : QcEnv) (input : List Char) : PMResult :=
  if trim input = [] then ⟨false, none, []⟩
  else if ¬ verifyMcqFormat input then ⟨false, none, []⟩
  else
    match performQc env input with
    | .error _ => ⟨false, none, []⟩
    | .ok (corrected, ws) =>
      if ¬ verifyMcqFormat corrected then ⟨false, none, ws⟩
      else ⟨true, some corrected, ws⟩

/-- Batch `i` of a list under `BATCH_SIZE = 5`. -/
def batchOf (l : List (List Char)) (i : Nat) : List (List Char) :=
  (l.drop (5 * i)).take 5

/-! ## The duplicate-detection store (`mcq/db.py`) -/

/-- An embedding vector (`model.encode(...).tolist()`); its numeric content
is never inspected by `add_unique_questions`, so the component type is left
abstract as `Int`. -/
abbrev Vec : Type := List Int

/-- The fields of a question dict that `add_unique_questions` reads or
writes: `question['question_data']`, `question['options']` (passed to
`question_exists` but unused there) and the attached
`question['question_vector']`. -/
structure DbQuestion where
  question_data : List Char
  options : List (List Char)
  question_vector : Option Vec
  deriving DecidableEq, Repr

/-- The external services behind the store:
* `phraseHit stored query` — does the Elasticsearch `match_phrase` query with
  `slop: 3` over the `question_data` field hit the stored document for this
  query text (the fuzzy phrase match, abstract);
* `searchFail query` — does the search call raise (a connectivity failure);
* `encodeRes key` — `model.encode(key).tolist()`, or a raised failure;
* `insertOutcome doc` — the `response['result']` string of
  `client.index(...)`, or a raised failure. -/
structure DupEnv where
  phraseHit : List Char → List Char → Bool
  searchFail : List Char → Bool
  encodeRes : List Char → Except Unit Vec
  insertOutcome : DbQuestion → Except Unit (List Char)

/-- The `$$$examly` separator between the rendered stem and the code block. -/
def sepExamly : List Char := "$$$examly".data

/-- Lines 74–76: the comparison key — `question_data`, cut at the separator
when the separator occurs (`split('$$$examly')[0]`). -/
def compKey (s : List Char) : List Char :=
  if containsSub sepExamly s then splitFirst sepExamly s else s

/-- `question_exists` (`mcq/db.py` lines 99–124): the search query may raise —
the function's own `except` catches it and returns `(False, None)` (line 124);
otherwise the first stored document hit by the phrase match is returned. -/
def question_exists (env : DupEnv) (store : List DbQuestion)
    (question_data : List Char) (_options : List (List Char)) :
    Bool × Option (List Char) :=
  if env.searchFail question_data then (false, none)
  else
    match store.find? (fun s => env.phraseHit s.question_data question_data) with
    | some s => (true, some s.question_data)
    | none => (false, none)

/-- `add_unique_questions` (`mcq/db.py` lines 70–97) with the index contents
made explicit as `store`.  Result: `(unique_questions, duplicates,
final store)`.  The per-record body has *no* `try`: a failure raised by
`model.encode` or `client.index` propagates out of the whole method
(`Except.error`), aborting the remaining records; only the search inside
`question_exists` is protected.  A successful insert stores the document
(Elasticsearch reports `'created'` for it); the record is appended to
`unique_questions` only when the reported result is `'created'`. -/
def addUniqueAux (env : DupEnv) :
    List DbQuestion → List DbQuestion →
    Except Unit (List DbQuestion × Nat × List DbQuestion)
  | [], store => .ok ([], 0, store)
  | q :: rest, store =>
    let key := compKey q.question_data
    if (question_exists env store key q.options).1 then
      (addUniqueAux env rest store).map (fun r => (r.1, r.2.1 + 1, r.2.2))
    else
      match env.encodeRes key with
      | .error e => .error e
      | .ok v =>
        let q' : DbQuestion := { q with question_vector := some v }
        match env.insertOutcome q' with
        | .error e => .error e
        | .ok res =>
          if res = "created".data then
            (addUniqueAux env rest (store ++ [q'])).map
              (fun r => (q' :: r.1, r.2.1, r.2.2))
          else
            addUniqueAux env rest store

/-- `question_bank.add_unique_questions(questions)` against a given index
state. -/
def add_unique_questions (env : DupEnv) (store : List DbQuestion)
    (questions : List DbQuestion) :
    Except Unit (List DbQuestion × Nat × List DbQuestion) :=
  addUniqueAux env questions store

/-! ## Concrete inputs used by the claim theorems -/

/-- A well-formed block with options a–d and `Correct answer: 0`
(1-based index 0, 0-based index −1). -/
def zeroBlock : List Char :=
  "Q1. What?\n1) a\n2) b\n3) c\n4) d\nCorrect answer: 0".data

/-- The P3 block: options A–D, `Correct answer: 3`. -/
def p3Block : List Char :=
  "Q1. What is X?\n1) A\n2) B\n3) C\n4) D\nCorrect answer: 3".data

/-- A block with *no* `Correct answer:` substring — but removing the code
match `` ```x\nq``` `` glues `Correct ans` and `wer: 2` together. -/
def straddleBlock : List Char :=
  "Q1. What?\n1) a\n2) b\n3) c\n4) d\nCorrect ans```x\nq```wer: 2\n".data

/-- Blocks for the C2 witness: one with no `Correct answer:` substring at
all, one with only two options. -/
def noAnswerBlock : List Char :=
  "Q9. Which one?\n1) a\n2) b\n3) c\n4) d\n".data

def twoOptionBlock : List Char :=
  "Q2. Pick one\n1) x\n2) y\nCorrect answer: 1".data


/-- `occursAt pat s i`: does `pat` occur in `s` starting at position `i`? -/
def occursAt (pat s : List Char) (i : Nat) : Bool :=
  isPrefixL pat (s.drop i)

/-- The record both parsers produce for `p3Block`. -/
def p3Rec : Record :=
  { question_type := "mcq_single_correct".data
    question_data := "<p>What is X?</p>".data
    options := ["A".data, "B".data, "C".data, "D".data]
    answerArgs := ["C".data]
    manual_difficulty := "Easy".data
    question_editor_type := 1
    tags := [] }

/-- A one-question QC input and a reviewer that answers with the empty
string (so its response parses to zero blocks). -/
def qcInputOne : List Char :=
  "Q1. Is this fine?\n1) a\n2) b\n3) c\n4) d\nCorrect answer: 1".data

def qcEnvEmpty : QcEnv := ⟨fun _ => [], []⟩

/-- Concrete records and store environments for the dedup claims. -/
def dbQ1 : DbQuestion :=
  ⟨"<p>What is a pointer?</p>".data, ["a".data, "b".data, "c".data, "d".data], none⟩

def dbQ2 : DbQuestion :=
  ⟨"<p>What is recursion?</p>".data, ["a".data, "b".data, "c".data, "d".data], none⟩

/-- A fully healthy environment: no phrase hit, no failures, inserts report
`'created'`. -/
def envHealthy : DupEnv :=
  ⟨fun _ _ => false, fun _ => false, fun _ => .ok [1], fun _ => .ok "created".data⟩

/-- The search query raises (connectivity failure) on every key. -/
def envSearchFailing : DupEnv :=
  ⟨fun _ _ => false, fun _ => true, fun _ => .ok [1], fun _ => .ok "created".data⟩

/-- The embedding model raises on every key. -/
def envEncodeFail : DupEnv :=
  ⟨fun _ _ => false, fun _ => false, fun _ => .error (), fun _ => .ok "created".data⟩

/-- The index-insert call raises on every document. -/
def envInsertFail : DupEnv :=
  ⟨fun _ _ => false, fun _ => false, fun _ => .ok [1], fun _ => .error ()⟩

/-- Strings for the comparison-key claim. -/
def stemKey : List Char := "<p>What is X?</p>\n".data

def codeTail : List Char := "x = 1".data

def plainKey : List Char := "<p>No code here</p>".data

/-! ## Supporting lemmas -/

theorem pyGet_mem {α : Type} {xs : List α} {i : Int} {a : α}
    (h : pyGet xs i = some a) : a ∈ xs := by
  unfold pyGet at h
  split at h
  · exact List.get?_mem h
  · split at h
    · exact List.get?_mem h
    · exact absurd h (by simp)

theorem searchCorrect_eq_none {q : List Char}
    (h : containsSub "Correct answer:".data q = false) :
    searchCorrect q = none := by
  induction q with
  | nil => rfl
  | cons c cs ih =>
    rw [containsSub, Bool.or_eq_false_iff] at h
    rw [searchCorrect, if_neg (by simp [h.1])]
    exact ih h.2

theorem processQuestionOld_eq_none_of_no_answer {q : List Char}
    (h : containsSub "Correct answer:".data q = false) :
    processQuestionOld q = none := by
  rw [processQuestionOld.eq_def]
  split
  · rfl
  · rw [searchCorrect_eq_none h]
    split
    · rfl
    · rfl

theorem processQuestionOld_eq_none_of_bad_count {q : List Char}
    (h : (oldOptions q).length ≠ 4) :
    processQuestionOld q = none := by
  rw [processQuestionOld.eq_def]
  split
  · rfl
  · rw [if_neg h]

theorem extract_eq_none_of_no_answer {q : List Char}
    (h : containsSub "Correct answer:".data (strippedQuestion q) = false) :
    extract_question_components q = none := by
  rw [extract_question_components.eq_def]
  split
  · rfl
  · split
    · rfl
    · rw [searchCorrect_eq_none h]
      split
      · rfl
      · rfl

theorem extract_eq_none_of_bad_count {q : List Char}
    (h : (mcqOptions (strippedQuestion q)).length ≠ 4) :
    extract_question_components q = none := by
  rw [extract_question_components.eq_def]
  split
  · rfl
  · split
    · rfl
    next sect hs =>
      rw [mcqOptions, hs] at h
      rw [if_neg h]

theorem rtrim_idem (l : List Char) : rtrim (rtrim l) = rtrim l := by
  induction l with
  | nil => rfl
  | cons c cs ih =>
    rw [rtrim]
    split
    · rfl
    next hcond =>
      rw [rtrim, ih]
      rw [if_neg hcond]

theorem head_dropWhile_not {p : Char → Bool} {s : List Char} {c : Char}
    (h : (s.dropWhile p).head? = some c) : p c = false := by
  induction s with
  | nil => simp at h
  | cons a as ih =>
    rw [List.dropWhile_cons] at h
    split at h
    · exact ih h
    next hpa =>
      simp only [List.head?_cons, Option.some.injEq] at h
      subst h
      exact Bool.not_eq_true _ |>.mp hpa

theorem rtrim_head {l : List Char} (h : rtrim l ≠ []) : (rtrim l).head? = l.head? := by
  cases l with
  | nil => exact absurd rfl h
  | cons c cs =>
    by_cases hc : rtrim cs = [] ∧ isSpaceP c
    · rw [rtrim, if_pos hc] at h; exact absurd rfl h
    · rw [rtrim, if_neg hc]; rfl

theorem trim_idem (s : List Char) : trim (trim s) = trim s := by
  cases h : trim s with
  | nil => rfl
  | cons d t =>
    have hne : rtrim (s.dropWhile isSpaceP) ≠ [] := by
      have h2 : trim s ≠ [] := by rw [h]; simp
      exact h2
    have hh := rtrim_head hne
    have hh2 : (s.dropWhile isSpaceP).head? = some d := by
      rw [← hh]
      show (trim s).head? = some d
      rw [h]
      rfl
    have hd : isSpaceP d = false := head_dropWhile_not hh2
    show trim (d :: t) = d :: t
    rw [trim, List.dropWhile_cons, hd]
    simp only [Bool.false_eq_true, if_false]
    rw [← h]
    exact rtrim_idem _

theorem trim_head_of_not_space {c : Char} {t : List Char} (hns : isSpaceP c = false) :
    (trim (c :: t)).head? = some c := by
  rw [trim, List.dropWhile_cons, hns]
  simp only [Bool.false_eq_true, if_false]
  rw [rtrim, if_neg (by simp [hns])]
  rfl

theorem batchOf_drop (l : List (List Char)) (i : Nat) :
    batchOf (l.drop 5) i = batchOf l (i + 1) := by
  rw [batchOf, batchOf, List.drop_drop]
  congr 2
  ring

theorem batchOf_succ_cons (q1 q2 q3 q4 q5 : List Char) (rest : List (List Char)) (i : Nat) :
    batchOf (q1 :: q2 :: q3 :: q4 :: q5 :: rest) (i + 1) = batchOf rest i := by
  rw [batchOf, batchOf, show 5 * (i + 1) = 5 + 5 * i from by ring, ← List.drop_drop]
  rfl

theorem batchOf_zero (l : List (List Char)) : batchOf l 0 = l.take 5 := by
  rw [batchOf]
  simp

/-- An invalid batch anywhere makes the whole QC loop raise. -/
theorem qcLoop_error (env : QcEnv) :
    ∀ (i idx : Nat) (qs ns : List (List Char)),
      batchOf qs i ≠ [] →
      validBatch (env.reviewer (idx + i)) (batchOf qs i) (batchOf ns i) = false →
      qcLoop env idx qs ns = .error () := by
  intro i
  induction i with
  | zero =>
    intro idx qs ns hne hbad
    rw [Nat.add_zero] at hbad
    rw [batchOf_zero] at hbad
    rw [batchOf_zero] at hbad
    match qs with
    | [] => rw [batchOf_zero] at hne; simp at hne
    | q1 :: q2 :: q3 :: q4 :: q5 :: rest =>
      simp only [List.take] at hbad
      rw [qcLoop, if_neg (by simp [hbad])]
    | [q1] =>
      simp only [List.take] at hbad
      simp only [qcLoop]
      rw [if_neg (by simp [hbad])]
    | [q1, q2] =>
      simp only [List.take] at hbad
      simp only [qcLoop]
      rw [if_neg (by simp [hbad])]
    | [q1, q2, q3] =>
      simp only [List.take] at hbad
      simp only [qcLoop]
      rw [if_neg (by simp [hbad])]
    | [q1, q2, q3, q4] =>
      simp only [List.take] at hbad
      simp only [qcLoop]
      rw [if_neg (by simp [hbad])]
  | succ i ih =>
    intro idx qs ns hne hbad
    match qs with
    | [] => rw [batchOf] at hne; simp at hne
    | [q1] => rw [batchOf] at hne; simp [List.drop] at hne
    | [q1, q2] => rw [batchOf] at hne; simp [List.drop] at hne
    | [q1, q2, q3] => rw [batchOf] at hne; simp [List.drop] at hne
    | [q1, q2, q3, q4] => rw [batchOf] at hne; simp [List.drop] at hne
    | q1 :: q2 :: q3 :: q4 :: q5 :: rest =>
      rw [qcLoop]
      split
      · have h1 : batchOf rest i ≠ [] := by
          rw [← batchOf_succ_cons q1 q2 q3 q4 q5 rest i]
          exact hne
        have h2 : validBatch (env.reviewer ((idx + 1) + i)) (batchOf rest i)
            (batchOf (ns.drop 5) i) = false := by
          rw [← batchOf_succ_cons q1 q2 q3 q4 q5 rest i, batchOf_drop]
          have harith : idx + 1 + i = idx + (i + 1) := by omega
          rw [harith]
          exact hbad
        rw [ih (idx + 1) rest (ns.drop 5) h1 h2]
        rfl
      · rfl

theorem isPrefixL_self_append (l t : List Char) : isPrefixL l (l ++ t) = true := by
  induction l with
  | nil => rfl
  | cons c cs ih => simp [isPrefixL, ih]

theorem containsSub_mid (t : Char) (ts b : List Char) :
    ∀ a : List Char, containsSub (t :: ts) (a ++ (t :: ts) ++ b) = true := by
  intro a
  induction a with
  | nil =>
    rw [List.nil_append, List.cons_append, containsSub]
    have h2 : isPrefixL (t :: ts) (t :: (ts ++ b)) = true := by
      have h3 := isPrefixL_self_append (t :: ts) b
      rwa [List.cons_append] at h3
    rw [h2, Bool.true_or]
  | cons c a' ih =>
    rw [List.cons_append, List.cons_append, containsSub, ih, Bool.or_true]

/-- `str.split` head: when the first occurrence of the separator in
`a ++ sep ++ b` is at position `a.length`, the first piece is `a`. -/
theorem splitTokGo_head (t : Char) (ts b : List Char) :
    ∀ (a acc : List Char),
      (∀ i, i < a.length → occursAt (t :: ts) (a ++ (t :: ts) ++ b) i = false) →
      ∃ rest, splitTokGo (t :: ts) (a ++ (t :: ts) ++ b) 0 acc
              = (acc.reverse ++ a) :: rest := by
  intro a
  induction a with
  | nil =>
    intro acc _
    rw [List.nil_append, List.cons_append, splitTokGo]
    have h2 : isPrefixL (t :: ts) (t :: (ts ++ b)) = true := by
      have h3 := isPrefixL_self_append (t :: ts) b
      rwa [List.cons_append] at h3
    rw [if_pos h2]
    exact ⟨_, by rw [List.append_nil]⟩
  | cons c a' ih =>
    intro acc h
    rw [List.cons_append, List.cons_append, splitTokGo]
    have h0 : isPrefixL (t :: ts) (c :: (a' ++ (t :: ts) ++ b)) = false := by
      have h1 := h 0 (by simp)
      rw [occursAt, List.drop_zero, List.cons_append, List.cons_append] at h1
      exact h1
    rw [if_neg (by rw [h0]; simp)]
    have hshift : ∀ i, i < a'.length →
        occursAt (t :: ts) (a' ++ (t :: ts) ++ b) i = false := by
      intro i hi
      have h2 := h (i + 1) (by simp only [List.length_cons]; omega)
      rw [occursAt, List.cons_append, List.cons_append, List.drop_succ_cons] at h2
      exact h2
    obtain ⟨rest, hrest⟩ := ih (c :: acc) hshift
    refine ⟨rest, ?_⟩
    rw [hrest]
    simp

theorem splitFirst_mid (t : Char) (ts b a : List Char)
    (h : ∀ i, i < a.length → occursAt (t :: ts) (a ++ (t :: ts) ++ b) i = false) :
    splitFirst (t :: ts) (a ++ (t :: ts) ++ b) = a := by
  obtain ⟨rest, hrest⟩ := splitTokGo_head t ts b a [] h
  rw [splitFirst, splitTok, hrest]
  simp

theorem question_exists_of_searchFail (env : DupEnv) (store : List DbQuestion)
    (key : List Char) (opts : List (List Char)) (h : env.searchFail key = true) :
    question_exists env store key opts = (false, none) := by
  rw [question_exists, if_pos h]

theorem question_exists_empty_store (env : DupEnv) (key : List Char)
    (opts : List (List Char)) (h : env.searchFail key = false) :
    question_exists env [] key opts = (false, none) := by
  rw [question_exists, if_neg (by simp [h])]
  rfl

/-! ## Claim theorems -/

/-- Claim C1 (code bug): for the block `zeroBlock`, whose
`Correct answer: 0` marker yields the 0-based index −1 (outside `[0,3]`),
`convert_to_json_format`'s inline parser does *not* reject the block: Python's
negative indexing turns `options[-1]` into the fourth option, so a record
whose correct-answer text is `"d"` is emitted.  The refactored
`extract_question_components` rejects the same block, as the claim states. -/
theorem C1_out_of_range_answer_emits_record :
    (processQuestionOld zeroBlock).map (fun r => r.answerArgs) = some ["d".data] ∧
    extract_question_components zeroBlock = none := by
  constructor
  · rfl
  · rfl

/-- Claim C2 (counterexample): `straddleBlock` contains no
`Correct answer:` substring — it has no `Correct answer:` line — yet
`extract_question_components` emits a record for it (with answer `"b"`),
because deleting the matched code block `` ```x\nq``` `` from the block glues
`Correct ans` and `wer: 2` into a `Correct answer:` marker. -/
theorem C2_counterexample :
    containsSub "Correct answer:".data straddleBlock = false ∧
    (extract_question_components straddleBlock).map (fun r => r.answerArgs) =
      some ["b".data] := by
  constructor
  · rfl
  · rfl

/-- Claim C2 (amended): a block with no `Correct answer:` substring is
rejected by `convert_to_json_format`'s inline parser; a block whose
*code-stripped* text has no `Correct answer:` substring is rejected by
`extract_question_components` (code removal can glue a marker together, see
`C2_counterexample`); and a block whose extracted option count is any number
other than 4 is rejected by both parsers. -/
theorem C2_parser_rejection_amended :
    (∀ q, containsSub "Correct answer:".data q = false →
       processQuestionOld q = none) ∧
    (∀ q, (oldOptions q).length ≠ 4 → processQuestionOld q = none) ∧
    (∀ q, containsSub "Correct answer:".data (strippedQuestion q) = false →
       extract_question_components q = none) ∧
    (∀ q, (mcqOptions (strippedQuestion q)).length ≠ 4 →
       extract_question_components q = none) :=
  ⟨fun _ h => processQuestionOld_eq_none_of_no_answer h,
   fun _ h => processQuestionOld_eq_none_of_bad_count h,
   fun _ h => extract_eq_none_of_no_answer h,
   fun _ h => extract_eq_none_of_bad_count h⟩

theorem C2_witness :
    (containsSub "Correct answer:".data noAnswerBlock = false ∧
     processQuestionOld noAnswerBlock = none) ∧
    ((oldOptions twoOptionBlock).length ≠ 4 ∧
     processQuestionOld twoOptionBlock = none) ∧
    (containsSub "Correct answer:".data (strippedQuestion noAnswerBlock) = false ∧
     extract_question_components noAnswerBlock = none) ∧
    ((mcqOptions (strippedQuestion twoOptionBlock)).length ≠ 4 ∧
     extract_question_components twoOptionBlock = none) :=
  ⟨⟨by decide, C2_parser_rejection_amended.1 noAnswerBlock (by decide)⟩,
   ⟨by decide, C2_parser_rejection_amended.2.1 twoOptionBlock (by decide)⟩,
   ⟨by decide, C2_parser_rejection_amended.2.2.1 noAnswerBlock (by decide)⟩,
   ⟨by decide, C2_parser_rejection_amended.2.2.2 twoOptionBlock (by decide)⟩⟩

/-- Claim C3: every record either parser emits has exactly 4 options, and its
answer field holds exactly one correct-answer text equal to one of those 4
option texts. -/
theorem C3_parser_invariant :
    (∀ q r, processQuestionOld q = some r →
      r.options.length = 4 ∧ ∃ x, r.answerArgs = [x] ∧ x ∈ r.options) ∧
    (∀ q r, extract_question_components q = some r →
      r.options.length = 4 ∧ ∃ x, r.answerArgs = [x] ∧ x ∈ r.options) := by
  constructor
  · intro q r h
    rw [processQuestionOld.eq_def] at h
    split at h
    · exact absurd h (by simp)
    · split at h
      case isTrue hlen =>
        split at h
        · exact absurd h (by simp)
        · split at h
          · exact absurd h (by simp)
          next ans hans =>
            injection h with h'
            subst h'
            exact ⟨hlen, ans, rfl, pyGet_mem hans⟩
      case isFalse hlen => exact absurd h (by simp)
  · intro q r h
    rw [extract_question_components.eq_def] at h
    split at h
    · exact absurd h (by simp)
    · split at h
      · exact absurd h (by simp)
      · split at h
        case isTrue hlen =>
          split at h
          · exact absurd h (by simp)
          · split at h
            · exact absurd h (by simp)
            · split at h
              · exact absurd h (by simp)
              next ans hans =>
                injection h with h'
                subst h'
                exact ⟨hlen, ans, rfl, pyGet_mem hans⟩
        case isFalse hlen => exact absurd h (by simp)

theorem C3_witness :
    (processQuestionOld p3Block = some p3Rec ∧
      (p3Rec.options.length = 4 ∧ ∃ x, p3Rec.answerArgs = [x] ∧ x ∈ p3Rec.options)) ∧
    (extract_question_components p3Block = some p3Rec ∧
      (p3Rec.options.length = 4 ∧ ∃ x, p3Rec.answerArgs = [x] ∧ x ∈ p3Rec.options)) :=
  ⟨⟨by decide, C3_parser_invariant.1 p3Block p3Rec (by decide)⟩,
   ⟨by decide, C3_parser_invariant.2 p3Block p3Rec (by decide)⟩⟩

/-- Claim C4: for the block with options `["A","B","C","D"]` and
`Correct answer: 3`, both parsers produce a record whose correct-answer text
is `"C"` — the 1-based index is mapped to the 0-based position `N − 1`. -/
theorem C4_answer_resolution :
    (processQuestionOld p3Block).map (fun r => r.answerArgs) = some ["C".data] ∧
    (extract_question_components p3Block).map (fun r => r.answerArgs) =
      some ["C".data] := by
  constructor
  · rfl
  · rfl

/-- Claim C5 (counterexample): the splitters *do* keep blocks that do not
begin with the `Q<digits>.` marker prefix.  `convertor.py` keeps the leading
preamble `"hello"` outright; `mcq/convertor.py` filters only on the single
character `Q`, so the preamble `"Quick brown fox"` survives. -/
theorem C5_counterexample :
    splitBlocksOld "hello\nQ1. x".data = ["hello".data, "Q1. x".data] ∧
    beginsWithMarker "hello".data = false ∧
    splitBlocksMcq "Quick brown fox\nQ1. x".data =
      ["Quick brown fox".data, "Q1. x".data] ∧
    beginsWithMarker "Quick brown fox".data = false := by
  refine ⟨?_, ?_, ?_, ?_⟩ <;> rfl

/-- Claim C5 (amended): every block the `mcq/convertor.py` splitter outputs
is non-empty after trimming (indeed already trimmed) and begins with the
character `Q` — not necessarily with the full `Q<digits>.` marker prefix; the
`convertor.py` splitter only discards blocks that are empty after trimming
and can retain leading preamble text. -/
theorem C5_splitter_output_amended :
    ∀ content : List Char,
      (∀ b, b ∈ splitBlocksMcq content →
        trim b = b ∧ b ≠ [] ∧ b.head? = some 'Q') ∧
      (∀ b, b ∈ splitBlocksOld content → trim b = b ∧ b ≠ []) := by
  intro content
  constructor
  · intro b hb
    rw [splitBlocksMcq, List.mem_filterMap] at hb
    obtain ⟨q, _, hfq⟩ := hb
    split at hfq
    next hcond =>
      injection hfq with h'
      subst h'
      refine ⟨trim_idem q, hcond.1, ?_⟩
      cases q with
      | nil => simp at hcond
      | cons c cs =>
        have hcQ : c = 'Q' := by
          have h2 := hcond.2
          simp only [List.head?_cons, Option.some.injEq] at h2
          exact h2
        subst hcQ
        exact trim_head_of_not_space (by decide)
    · simp at hfq
  · intro b hb
    rw [splitBlocksOld, List.mem_filter] at hb
    obtain ⟨hmem, hne⟩ := hb
    rw [List.mem_map] at hmem
    obtain ⟨q, _, hq⟩ := hmem
    subst hq
    refine ⟨trim_idem q, by simpa using hne⟩

theorem C5_witness :
    ("Q1. x".data ∈ splitBlocksMcq "Q1. x".data ∧
      (trim "Q1. x".data = "Q1. x".data ∧ "Q1. x".data ≠ [] ∧
       ("Q1. x".data).head? = some 'Q')) ∧
    ("Q1. x".data ∈ splitBlocksOld "Q1. x".data ∧
      (trim "Q1. x".data = "Q1. x".data ∧ "Q1. x".data ≠ [])) :=
  ⟨⟨by decide, (C5_splitter_output_amended "Q1. x".data).1 "Q1. x".data (by decide)⟩,
   ⟨by decide, (C5_splitter_output_amended "Q1. x".data).2 "Q1. x".data (by decide)⟩⟩

/-- Claim C6 (counterexample): with the supplied expected count `E = 0` and
one split block, neither splitter truncates to the first `0` blocks —
Python's `if expected_count and ...` guard treats `0` as false. -/
theorem C6_counterexample :
    (convertSplitOld "Q1. x".data (some 0)).length = 1 ∧
    (convertSplitMcq "Q1. x".data (some 0)).length = 1 := by
  constructor
  · rfl
  · rfl

/-- Claim C6 (amended): for a supplied *positive* expected count `E`, both
splitters truncate to the first `E` blocks when more than `E` were split, and
proceed with all found blocks when at most `E` were found; in neither case is
the mismatch an error.  (For the supplied count `0` the guard is skipped and
nothing is truncated, see `C6_counterexample`.) -/
theorem C6_expected_count_amended :
    ∀ (content : List Char) (e : Nat), 0 < e →
      ((e < (splitBlocksOld content).length →
          convertSplitOld content (some e) = (splitBlocksOld content).take e) ∧
       ((splitBlocksOld content).length ≤ e →
          convertSplitOld content (some e) = splitBlocksOld content)) ∧
      ((e < (splitBlocksMcq content).length →
          convertSplitMcq content (some e) = (splitBlocksMcq content).take e) ∧
       ((splitBlocksMcq content).length ≤ e →
          convertSplitMcq content (some e) = splitBlocksMcq content)) := by
  intro content e he
  refine ⟨⟨?_, ?_⟩, ?_, ?_⟩
  · intro h
    rw [convertSplitOld, reconcileOld, if_pos ⟨by omega, by omega⟩]
  · intro h
    by_cases hlen : (splitBlocksOld content).length = e
    · rw [convertSplitOld, reconcileOld, if_neg (by omega)]
    · rw [convertSplitOld, reconcileOld, if_pos ⟨by omega, by omega⟩]
      exact List.take_of_length_le (by omega)
  · intro h
    rw [convertSplitMcq, reconcileMcq, if_pos ⟨by omega, by omega⟩, if_pos (by omega)]
  · intro h
    by_cases hlen : (splitBlocksMcq content).length = e
    · rw [convertSplitMcq, reconcileMcq, if_neg (by omega)]
    · rw [convertSplitMcq, reconcileMcq, if_pos ⟨by omega, by omega⟩, if_neg (by omega)]

theorem C6_witness :
    (0 < 1 ∧ 1 < (splitBlocksOld "Q1. xQ2. y".data).length ∧
     convertSplitOld "Q1. xQ2. y".data (some 1) =
       (splitBlocksOld "Q1. xQ2. y".data).take 1) ∧
    (0 < 1 ∧ 1 < (splitBlocksMcq "Q1. xQ2. y".data).length ∧
     convertSplitMcq "Q1. xQ2. y".data (some 1) =
       (splitBlocksMcq "Q1. xQ2. y".data).take 1) :=
  ⟨⟨by decide, by decide,
    ((C6_expected_count_amended "Q1. xQ2. y".data 1 (by decide)).1).1 (by decide)⟩,
   ⟨by decide, by decide,
    ((C6_expected_count_amended "Q1. xQ2. y".data 1 (by decide)).2).1 (by decide)⟩⟩

/-- Claim C7: if any QC batch's reviewer response parses to a different
number of question blocks than were sent, or some returned block does not
start with its expected ordinal `Q<N>.`, then `process_mcqs` reports failure
(success flag `False`) and performs no file write at all — in particular the
original input blocks are untouched on disk. -/
theorem C7_qc_batch_failure_aborts :
    ∀ (env : QcEnv) (input : List Char),
      (∃ i, batchOf (qcQuestionsOf input) i ≠ [] ∧
        validBatch (env.reviewer i) (batchOf (qcQuestionsOf input) i)
          (batchOf (numbersOf (qcQuestionsOf input)) i) = false) →
      (process_mcqs env input).success = false ∧
      (process_mcqs env input).writes = [] := by
  intro env input hex
  obtain ⟨i, hne, hbad⟩ := hex
  have hloop := qcLoop_error env i 0 (qcQuestionsOf input)
      (numbersOf (qcQuestionsOf input)) hne (by rw [Nat.zero_add]; exact hbad)
  have hqc : performQc env input = .error () := by
    rw [performQc, hloop]
  rw [process_mcqs]
  split
  · exact ⟨rfl, rfl⟩
  · split
    · exact ⟨rfl, rfl⟩
    · rw [hqc]
      exact ⟨rfl, rfl⟩

theorem C7_witness :
    (batchOf (qcQuestionsOf qcInputOne) 0 ≠ [] ∧
     validBatch (qcEnvEmpty.reviewer 0) (batchOf (qcQuestionsOf qcInputOne) 0)
       (batchOf (numbersOf (qcQuestionsOf qcInputOne)) 0) = false) ∧
    (process_mcqs qcEnvEmpty qcInputOne).success = false ∧
    (process_mcqs qcEnvEmpty qcInputOne).writes = [] :=
  ⟨⟨by decide, by decide⟩,
   C7_qc_batch_failure_aborts qcEnvEmpty qcInputOne ⟨0, by decide, by decide⟩⟩

/-- Claim C8: the per-record semantics of `add_unique_questions`.
(1) A fuzzy-match hit increments the duplicate count and the record is
neither stored nor accepted.  (2) With no hit, an embedding vector is
computed and attached, the record is inserted, and it is prepended to the
accepted output (and to the store) when the insert reports `'created'`.
(3) An insert that succeeds with any other result string leaves the record
neither accepted nor counted as duplicate.  (4) On an empty store, a record
with a non-empty comparison key is accepted with duplicate count 0. -/
theorem C8_add_unique_semantics :
    (∀ (env : DupEnv) (store : List DbQuestion) (q : DbQuestion)
       (rest u st : List DbQuestion) (d : Nat),
       (question_exists env store (compKey q.question_data) q.options).1 = true →
       add_unique_questions env store (q :: rest) = .ok (u, d, st) →
       ∃ d', add_unique_questions env store rest = .ok (u, d', st) ∧ d = d' + 1) ∧
    (∀ (env : DupEnv) (store : List DbQuestion) (q : DbQuestion)
       (rest : List DbQuestion) (v : Vec),
       (question_exists env store (compKey q.question_data) q.options).1 = false →
       env.encodeRes (compKey q.question_data) = .ok v →
       env.insertOutcome { q with question_vector := some v } = .ok "created".data →
       add_unique_questions env store (q :: rest) =
         (add_unique_questions env
             (store ++ [{ q with question_vector := some v }]) rest).map
           (fun r => ({ q with question_vector := some v } :: r.1, r.2.1, r.2.2))) ∧
    (∀ (env : DupEnv) (store : List DbQuestion) (q : DbQuestion)
       (rest : List DbQuestion) (v : Vec) (res : List Char),
       (question_exists env store (compKey q.question_data) q.options).1 = false →
       env.encodeRes (compKey q.question_data) = .ok v →
       env.insertOutcome { q with question_vector := some v } = .ok res →
       res ≠ "created".data →
       add_unique_questions env store (q :: rest) =
         add_unique_questions env store rest) ∧
    (∀ (env : DupEnv) (q : DbQuestion) (v : Vec),
       env.searchFail (compKey q.question_data) = false →
       env.encodeRes (compKey q.question_data) = .ok v →
       env.insertOutcome { q with question_vector := some v } = .ok "created".data →
       compKey q.question_data ≠ [] →
       add_unique_questions env [] [q] =
         .ok ([{ q with question_vector := some v }], 0,
              [{ q with question_vector := some v }])) := by
  refine ⟨?_, ?_, ?_, ?_⟩
  · intro env store q rest u st d h1 h2
    rw [add_unique_questions, addUniqueAux, if_pos h1] at h2
    rw [add_unique_questions]
    cases hrest : addUniqueAux env rest store with
    | error e => rw [hrest] at h2; exact absurd h2 (by simp [Except.map])
    | ok r =>
      obtain ⟨ru, rd, rst⟩ := r
      rw [hrest] at h2
      simp only [Except.map] at h2
      injection h2 with h3
      simp only [Prod.mk.injEq] at h3
      obtain ⟨hu, hd, hst⟩ := h3
      subst hu; subst hst
      exact ⟨rd, rfl, hd.symm⟩
  · intro env store q rest v h1 h2 h3
    rw [add_unique_questions, addUniqueAux, if_neg (by simp [h1])]
    simp only [h2, h3, if_pos]
    rfl
  · intro env store q rest v res h1 h2 h3 h4
    rw [add_unique_questions, addUniqueAux, if_neg (by simp [h1])]
    simp only [h2, h3]
    rw [if_neg h4]
    rfl
  · intro env q v h1 h2 h3 _
    have hqe := question_exists_empty_store env (compKey q.question_data) q.options h1
    rw [add_unique_questions, addUniqueAux, if_neg (by simp [hqe])]
    simp only [h2, h3, if_pos]
    rfl

theorem C8_witness :
    (envHealthy.searchFail (compKey dbQ1.question_data) = false ∧
     envHealthy.encodeRes (compKey dbQ1.question_data) = .ok [1] ∧
     envHealthy.insertOutcome { dbQ1 with question_vector := some [1] } =
       .ok "created".data ∧
     compKey dbQ1.question_data ≠ []) ∧
    add_unique_questions envHealthy [] [dbQ1] =
      .ok ([{ dbQ1 with question_vector := some [1] }], 0,
           [{ dbQ1 with question_vector := some [1] }]) :=
  ⟨⟨rfl, rfl, rfl, by decide⟩,
   C8_add_unique_semantics.2.2.2 envHealthy dbQ1 [1] rfl rfl rfl (by decide)⟩

/-- Claim C9: the comparison key used by the duplicate check is the question
body with the trailing code segment removed — `split('$$$examly')[0]`.  When
the separator does not occur the key is the full body; when the body is
`a ++ sep ++ b` with the first separator occurrence at position `a.length`,
the key is exactly `a`. -/
theorem C9_comparison_key :
    (∀ s, containsSub sepExamly s = false → compKey s = s) ∧
    (∀ a b, (∀ i, i < a.length →
        occursAt sepExamly (a ++ sepExamly ++ b) i = false) →
      compKey (a ++ sepExamly ++ b) = a) := by
  constructor
  · intro s h
    rw [compKey, if_neg (by simp [h])]
  · intro a b h
    have hsep : sepExamly = '$' :: "$$examly".data := rfl
    rw [hsep] at h
    rw [compKey, hsep]
    rw [if_pos (containsSub_mid '$' "$$examly".data b a)]
    exact splitFirst_mid '$' "$$examly".data b a h

theorem C9_witness :
    ((∀ i, i < stemKey.length →
        occursAt sepExamly (stemKey ++ sepExamly ++ codeTail) i = false) ∧
     compKey (stemKey ++ sepExamly ++ codeTail) = stemKey) ∧
    (containsSub sepExamly plainKey = false ∧ compKey plainKey = plainKey) :=
  ⟨⟨by decide, C9_comparison_key.2 stemKey codeTail (by decide)⟩,
   ⟨by decide, C9_comparison_key.1 plainKey (by decide)⟩⟩

/-- Claim C10 (counterexample): a connectivity failure in the index-insert
call does *not* abort only the current record — it propagates out of
`add_unique_questions` (the per-record loop body has no `try`), so the whole
call raises and the second record of the batch is never processed. -/
theorem C10_counterexample :
    add_unique_questions envInsertFail [] [dbQ1, dbQ2] = .error () := rfl

/-- Claim C10 (amended): only the fuzzy-match *search* query is protected —
its connectivity failure is caught inside `question_exists`, the record is
treated as not-duplicate and processing continues.  A failure raised by the
embedding computation or by the index insert propagates out of
`add_unique_questions`, aborting the current and all later records of the
batch. -/
theorem C10_failure_semantics_amended :
    (∀ (env : DupEnv) (store : List DbQuestion) (key : List Char)
       (opts : List (List Char)),
       env.searchFail key = true →
       question_exists env store key opts = (false, none)) ∧
    (∀ (env : DupEnv) (store : List DbQuestion) (q : DbQuestion)
       (rest : List DbQuestion),
       (question_exists env store (compKey q.question_data) q.options).1 = false →
       env.encodeRes (compKey q.question_data) = .error () →
       add_unique_questions env store (q :: rest) = .error ()) ∧
    (∀ (env : DupEnv) (store : List DbQuestion) (q : DbQuestion)
       (rest : List DbQuestion) (v : Vec),
       (question_exists env store (compKey q.question_data) q.options).1 = false →
       env.encodeRes (compKey q.question_data) = .ok v →
       env.insertOutcome { q with question_vector := some v } = .error () →
       add_unique_questions env store (q :: rest) = .error ()) := by
  refine ⟨?_, ?_, ?_⟩
  · exact question_exists_of_searchFail
  · intro env store q rest h1 h2
    rw [add_unique_questions, addUniqueAux, if_neg (by simp [h1]), h2]
  · intro env store q rest v h1 h2 h3
    rw [add_unique_questions, addUniqueAux, if_neg (by simp [h1])]
    simp only [h2, h3]

theorem C10_witness :
    (envSearchFailing.searchFail "k".data = true ∧
     question_exists envSearchFailing [] "k".data [] = (false, none)) ∧
    ((question_exists envEncodeFail [] (compKey dbQ1.question_data)
        dbQ1.options).1 = false ∧
     envEncodeFail.encodeRes (compKey dbQ1.question_data) = .error () ∧
     add_unique_questions envEncodeFail [] [dbQ1] = .error ()) ∧
    ((question_exists envInsertFail [] (compKey dbQ1.question_data)
        dbQ1.options).1 = false ∧
     envInsertFail.encodeRes (compKey dbQ1.question_data) = .ok [1] ∧
     envInsertFail.insertOutcome { dbQ1 with question_vector := some [1] } =
       .error () ∧
     add_unique_questions envInsertFail [] [dbQ1] = .error ()) :=
  ⟨⟨rfl, C10_failure_semantics_amended.1 envSearchFailing [] "k".data [] rfl⟩,
   ⟨rfl, rfl, C10_failure_semantics_amended.2.1 envEncodeFail [] dbQ1 [] rfl rfl⟩,
   ⟨rfl, rfl, rfl,
    C10_failure_semantics_amended.2.2 envInsertFail [] dbQ1 [] [1] rfl rfl rfl⟩⟩

end MCQ
